import Mathlib

/-
  Verification of the pti-gpu trace-record delivery protocol and the
  per-function latency aggregator.

  The aggregator is embedded from
  src/samples/cl_hot_functions/cl_api_collector.h (struct Function,
  ClApiCollector::AddFunctionTime, ClApiCollector::PrintFunctionsTable).
  Machine integers (uint64_t) are modelled as Nat with explicit reduction
  modulo 2^64 at each arithmetic operation that can overflow.

  The record iterator (ptiViewGetNextRecord) and callback registration
  (ptiViewSetCallbacks) have no implementation in the sources at hand,
  only their tests (src/sdk/test/main_zegemm_fixture.cc); they are
  modelled from the specification, as marked on each definition.
-/

namespace PtiGpu

/-- 2^64, the modulus of uint64_t arithmetic. -/
def U64 : Nat := 2 ^ 64

/-- Embeds `struct Function` from cl_api_collector.h: per-function running
statistics (all fields uint64_t). -/
structure Function where
  total_time : Nat
  min_time : Nat
  max_time : Nat
  call_count : Nat
deriving DecidableEq

/-- Embeds `Function::operator>`: compares by total_time, ties by call_count. -/
def Function.gt (l r : Function) : Bool :=
  if l.total_time ≠ r.total_time then decide (l.total_time > r.total_time)
  else decide (l.call_count > r.call_count)

/-- Embeds `Function::operator!=`: unequal totals, or equal totals and
unequal call counts. -/
def Function.ne (l r : Function) : Bool :=
  if l.total_time = r.total_time then decide (l.call_count ≠ r.call_count)
  else true

/-- Embeds `FunctionInfoMap = std::map<std::string, Function>` as an
association list with distinct keys (lookup ignores entry order). -/
abbrev FunctionInfoMap := List (String × Function)

/-- Lookup of a name in the map (the observable content of std::map). -/
def findEntry : FunctionInfoMap → String → Option Function
  | [], _ => none
  | (k, f) :: rest, name => if k = name then some f else findEntry rest name

/-- Embeds `ClApiCollector::AddFunctionTime`: first call for a name inserts
`{time, time, time, 1}`; a later call adds to total_time (mod 2^64 for the
uint64_t `+=`), lowers min_time, raises max_time, and increments call_count
(mod 2^64 for the uint64_t `++`). -/
def addFunctionTime : FunctionInfoMap → String → Nat → FunctionInfoMap
  | [], name, time => [(name, ⟨time, time, time, 1⟩)]
  | (k, f) :: rest, name, time =>
    if k = name then
      (k, { total_time := (f.total_time + time) % U64,
            min_time := if time < f.min_time then time else f.min_time,
            max_time := if time > f.max_time then time else f.max_time,
            call_count := (f.call_count + 1) % U64 }) :: rest
    else (k, f) :: addFunctionTime rest name time

/-- The effect of one AddFunctionTime call on the entry of the called name. -/
def step (s : Option Function) (t : Nat) : Function :=
  match s with
  | none => ⟨t, t, t, 1⟩
  | some f =>
    ⟨(f.total_time + t) % U64,
     if t < f.min_time then t else f.min_time,
     if t > f.max_time then t else f.max_time,
     (f.call_count + 1) % U64⟩

/-- The map after a sequence of AddFunctionTime calls starting empty. -/
def applyCalls (l : List (String × Nat)) : FunctionInfoMap :=
  l.foldl (fun m p => addFunctionTime m p.1 p.2) []

/-- The elapsed times of the calls of `l` carrying a given name, in order. -/
def times : List (String × Nat) → String → List Nat
  | [], _ => []
  | p :: l, name => if p.1 = name then p.2 :: times l name else times l name

lemma findEntry_add (m : FunctionInfoMap) (name k : String) (t : Nat) :
    findEntry (addFunctionTime m name t) k =
      if name = k then some (step (findEntry m k) t) else findEntry m k := by
  induction m with
  | nil =>
    by_cases h : name = k <;> simp [addFunctionTime, findEntry, step, h]
  | cons hd tl ih =>
    obtain ⟨k0, f⟩ := hd
    by_cases h1 : k0 = name
    · subst h1
      by_cases h2 : k0 = k
      · subst h2
        simp [addFunctionTime, findEntry, step]
      · simp [addFunctionTime, findEntry, h2]
    · by_cases h2 : k0 = k
      · subst h2
        have hnk : ¬ name = k0 := fun h => h1 h.symm
        simp [addFunctionTime, findEntry, h1, hnk]
      · simp [addFunctionTime, findEntry, h1, h2, ih]

lemma findEntry_foldl (l : List (String × Nat)) (m : FunctionInfoMap)
    (name : String) :
    findEntry (l.foldl (fun acc p => addFunctionTime acc p.1 p.2) m) name =
      (times l name).foldl (fun s t => some (step s t)) (findEntry m name) := by
  induction l generalizing m with
  | nil => simp [times]
  | cons p l ih =>
    obtain ⟨pn, pt⟩ := p
    simp only [List.foldl_cons]
    rw [ih, findEntry_add]
    by_cases h : pn = name
    · subst h
      simp [times]
    · simp [times, h]

lemma stepFold_spec (ts : List Nat) (f : Function)
    (htot : f.total_time < U64) (hcnt : f.call_count < U64) :
    ∃ g, ts.foldl (fun s t => some (step s t)) (some f) = some g ∧
      g.total_time = (f.total_time + ts.sum) % U64 ∧
      g.call_count = (f.call_count + ts.length) % U64 ∧
      (g.min_time = f.min_time ∨ g.min_time ∈ ts) ∧
      g.min_time ≤ f.min_time ∧ (∀ x ∈ ts, g.min_time ≤ x) ∧
      (g.max_time = f.max_time ∨ g.max_time ∈ ts) ∧
      f.max_time ≤ g.max_time ∧ (∀ x ∈ ts, x ≤ g.max_time) := by
  induction ts generalizing f with
  | nil =>
    refine ⟨f, rfl, ?_, ?_, Or.inl rfl, le_refl _, ?_, Or.inl rfl, le_refl _, ?_⟩
    · simp [Nat.mod_eq_of_lt htot]
    · simp [Nat.mod_eq_of_lt hcnt]
    · intro x hx; cases hx
    · intro x hx; cases hx
  | cons t ts ih =>
    have hU : 0 < U64 := by simp [U64]
    have htot' : (step (some f) t).total_time < U64 := Nat.mod_lt _ hU
    have hcnt' : (step (some f) t).call_count < U64 := Nat.mod_lt _ hU
    obtain ⟨g, hg, hgt, hgc, hminmem, hminle, hmints, hmaxmem, hmaxle, hmaxts⟩ :=
      ih (step (some f) t) htot' hcnt'
    have hto : (step (some f) t).total_time = (f.total_time + t) % U64 := rfl
    have hco : (step (some f) t).call_count = (f.call_count + 1) % U64 := rfl
    have hmi : (step (some f) t).min_time =
        if t < f.min_time then t else f.min_time := rfl
    have hma : (step (some f) t).max_time =
        if t > f.max_time then t else f.max_time := rfl
    have hmile : (step (some f) t).min_time ≤ f.min_time := by
      rw [hmi]; by_cases hc : t < f.min_time <;> simp [hc] <;> omega
    have hmilet : (step (some f) t).min_time ≤ t := by
      rw [hmi]; by_cases hc : t < f.min_time <;> simp [hc] <;> omega
    have hmale : f.max_time ≤ (step (some f) t).max_time := by
      rw [hma]; by_cases hc : t > f.max_time <;> simp [hc] <;> omega
    have hmalet : t ≤ (step (some f) t).max_time := by
      rw [hma]; by_cases hc : t > f.max_time <;> simp [hc] <;> omega
    refine ⟨g, hg, ?_, ?_, ?_, le_trans hminle hmile, ?_, ?_,
            le_trans hmale hmaxle, ?_⟩
    · rw [hgt, hto, Nat.mod_add_mod, List.sum_cons]
      congr 1
      omega
    · rw [hgc, hco, Nat.mod_add_mod, List.length_cons]
      congr 1
      omega
    · rcases hminmem with h | h
      · rw [h, hmi]
        by_cases hc : t < f.min_time
        · rw [if_pos hc]
          exact Or.inr (List.mem_cons_self _ _)
        · rw [if_neg hc]
          exact Or.inl rfl
      · exact Or.inr (List.mem_cons_of_mem _ h)
    · intro x hx
      rcases List.mem_cons.mp hx with h | h
      · subst h; exact le_trans hminle hmilet
      · exact hmints x h
    · rcases hmaxmem with h | h
      · rw [h, hma]
        by_cases hc : t > f.max_time
        · rw [if_pos hc]
          exact Or.inr (List.mem_cons_self _ _)
        · rw [if_neg hc]
          exact Or.inl rfl
      · exact Or.inr (List.mem_cons_of_mem _ h)
    · intro x hx
      rcases List.mem_cons.mp hx with h | h
      · subst h; exact le_trans hmalet hmaxle
      · exact hmaxts x h

lemma times_bound (l : List (String × Nat)) (name : String)
    (hb : ∀ p ∈ l, p.2 < U64) : ∀ x ∈ times l name, x < U64 := by
  induction l with
  | nil => intro x hx; cases hx
  | cons p l ih =>
    intro x hx
    by_cases h : p.1 = name
    · rw [times, if_pos h] at hx
      rcases List.mem_cons.mp hx with h2 | h2
      · subst h2; exact hb p (List.mem_cons_self _ _)
      · exact ih (fun q hq => hb q (List.mem_cons_of_mem _ hq)) x h2
    · rw [times, if_neg h] at hx
      exact ih (fun q hq => hb q (List.mem_cons_of_mem _ hq)) x hx

/-- Characterization of the entry for `name` after any call sequence:
absent iff no call used the name; otherwise total_time is the sum mod 2^64,
call_count the number of calls mod 2^64, and min_time/max_time the true
minimum and maximum of the elapsed values. -/
lemma entry_spec (l : List (String × Nat)) (name : String)
    (hb : ∀ p ∈ l, p.2 < U64) :
    (times l name = [] ↔ findEntry (applyCalls l) name = none) ∧
    (∀ s, findEntry (applyCalls l) name = some s →
      s.total_time = (times l name).sum % U64 ∧
      s.call_count = (times l name).length % U64 ∧
      s.min_time ∈ times l name ∧ (∀ x ∈ times l name, s.min_time ≤ x) ∧
      s.max_time ∈ times l name ∧ (∀ x ∈ times l name, x ≤ s.max_time)) := by
  have h := findEntry_foldl l [] name
  have hnil : findEntry ([] : FunctionInfoMap) name = none := rfl
  rw [hnil] at h
  cases hts : times l name with
  | nil =>
    rw [hts] at h
    simp only [List.foldl_nil] at h
    have h' : findEntry (applyCalls l) name = none := h
    exact ⟨Iff.intro (fun _ => h') (fun _ => rfl),
           fun s hs => by rw [h'] at hs; cases hs⟩
  | cons t ts =>
    rw [hts] at h
    simp only [List.foldl_cons] at h
    have ht : t < U64 := times_bound l name hb t (by rw [hts]; exact List.mem_cons_self _ _)
    have h1 : (1 : Nat) < U64 := by simp [U64]
    obtain ⟨g, hg, hgt, hgc, hminmem, hminle, hmints, hmaxmem, hmaxle, hmaxts⟩ :=
      stepFold_spec ts ⟨t, t, t, 1⟩ ht h1
    have hfind : findEntry (applyCalls l) name = some g := h.trans hg
    constructor
    · refine Iff.intro (fun h2 => absurd h2 (List.cons_ne_nil t ts)) ?_
      intro h2
      rw [hfind] at h2
      cases h2
    · intro s hs
      rw [hfind] at hs
      injection hs with hs
      subst hs
      refine ⟨?_, ?_, ?_, ?_, ?_, ?_⟩
      · simpa using hgt
      · simpa [Nat.add_comm 1 ts.length] using hgc
      · rcases hminmem with hm | hm
        · rw [hm]; exact List.mem_cons_self _ _
        · exact List.mem_cons_of_mem _ hm
      · intro x hx
        rcases List.mem_cons.mp hx with h2 | h2
        · subst h2; exact hminle
        · exact hmints x h2
      · rcases hmaxmem with hm | hm
        · rw [hm]; exact List.mem_cons_self _ _
        · exact List.mem_cons_of_mem _ hm
      · intro x hx
        rcases List.mem_cons.mp hx with h2 | h2
        · subst h2; exact hmaxle
        · exact hmaxts x h2

lemma mul_length_le_sum (m : Nat) (xs : List Nat) (h : ∀ x ∈ xs, m ≤ x) :
    m * xs.length ≤ xs.sum := by
  induction xs with
  | nil => simp
  | cons x xs ih =>
    have hx : m ≤ x := h x (List.mem_cons_self _ _)
    have hrest := ih (fun y hy => h y (List.mem_cons_of_mem _ hy))
    simp only [List.length_cons, List.sum_cons, Nat.mul_succ]
    omega

lemma sum_le_mul_length (M : Nat) (xs : List Nat) (h : ∀ x ∈ xs, x ≤ M) :
    xs.sum ≤ M * xs.length := by
  induction xs with
  | nil => simp
  | cons x xs ih =>
    have hx : x ≤ M := h x (List.mem_cons_self _ _)
    have hrest := ih (fun y hy => h y (List.mem_cons_of_mem _ hy))
    simp only [List.length_cons, List.sum_cons, Nat.mul_succ]
    omega

/-- C1 (counterexample): as literally stated, "total_time equals their sum"
fails under uint64_t overflow. Two calls of 2^63 ns each leave
total_time = 0 while the true sum is 2^64. -/
theorem c1_cex :
    findEntry (applyCalls [("f", 2 ^ 63), ("f", 2 ^ 63)]) "f" =
      some ⟨0, 2 ^ 63, 2 ^ 63, 2⟩ ∧
    (times [("f", 2 ^ 63), ("f", 2 ^ 63)] "f").sum = 2 ^ 64 ∧
    (0 : Nat) ≠ 2 ^ 64 := by
  refine ⟨?_, by decide, by decide⟩
  decide

/-- C1 (amended): after any sequence of AddFunctionTime calls with uint64_t
elapsed values, the entry for a name is absent iff the name was never
called; otherwise call_count is the number of calls with that name mod
2^64, total_time is the sum of their elapsed values mod 2^64, and
min_time/max_time are the true minimum and maximum of those values. -/
theorem c1_stats (l : List (String × Nat)) (name : String)
    (hb : ∀ p ∈ l, p.2 < U64) :
    (times l name = [] ↔ findEntry (applyCalls l) name = none) ∧
    (∀ s, findEntry (applyCalls l) name = some s →
      s.total_time = (times l name).sum % U64 ∧
      s.call_count = (times l name).length % U64 ∧
      s.min_time ∈ times l name ∧ (∀ x ∈ times l name, s.min_time ≤ x) ∧
      s.max_time ∈ times l name ∧ (∀ x ∈ times l name, x ≤ s.max_time)) :=
  entry_spec l name hb

/-- C1 witness: after [("f",5), ("f",3)] the entry is {8, 3, 5, 2}. -/
theorem c1_stats_witness :
    (∀ p ∈ ([("f", 5), ("f", 3)] : List (String × Nat)), p.2 < U64) ∧
    findEntry (applyCalls [("f", 5), ("f", 3)]) "f" = some ⟨8, 3, 5, 2⟩ ∧
    (Function.total_time ⟨8, 3, 5, 2⟩ =
      (times [("f", 5), ("f", 3)] "f").sum % U64 ∧
     Function.call_count ⟨8, 3, 5, 2⟩ =
      (times [("f", 5), ("f", 3)] "f").length % U64 ∧
     Function.min_time ⟨8, 3, 5, 2⟩ ∈ times [("f", 5), ("f", 3)] "f" ∧
     (∀ x ∈ times [("f", 5), ("f", 3)] "f",
        Function.min_time ⟨8, 3, 5, 2⟩ ≤ x) ∧
     Function.max_time ⟨8, 3, 5, 2⟩ ∈ times [("f", 5), ("f", 3)] "f" ∧
     (∀ x ∈ times [("f", 5), ("f", 3)] "f",
        x ≤ Function.max_time ⟨8, 3, 5, 2⟩)) :=
  ⟨by decide, by decide,
   (c1_stats [("f", 5), ("f", 3)] "f" (by decide)).2 ⟨8, 3, 5, 2⟩ (by decide)⟩

/-- C3 (counterexample): the invariant min_time ≤ total_time / call_count
fails under uint64_t overflow: after two calls of 2^63 ns the entry is
{total 0, min 2^63, max 2^63, count 2}, and 2^63 ≤ 0 / 2 is false. -/
theorem c3_cex :
    findEntry (applyCalls [("g", 2 ^ 63), ("g", 2 ^ 63)]) "g" =
      some ⟨0, 2 ^ 63, 2 ^ 63, 2⟩ ∧
    ¬ ((2 : Nat) ^ 63 ≤ 0 / 2) := by
  refine ⟨?_, by decide⟩
  decide

/-- C3 (amended): for every entry present after any call sequence in which
the calls for that name number fewer than 2^64 and their summed elapsed
time is below 2^64 (no uint64_t overflow), call_count ≥ 1 and
min_time ≤ total_time / call_count ≤ max_time. -/
theorem c3_invariant (l : List (String × Nat)) (name : String) (s : Function)
    (hb : ∀ p ∈ l, p.2 < U64)
    (hlen : (times l name).length < U64)
    (hsum : (times l name).sum < U64)
    (hf : findEntry (applyCalls l) name = some s) :
    1 ≤ s.call_count ∧ s.min_time ≤ s.total_time / s.call_count ∧
      s.total_time / s.call_count ≤ s.max_time := by
  obtain ⟨_, hchar⟩ := entry_spec l name hb
  obtain ⟨htot, hcnt, hminmem, hminle, _, hmaxle⟩ := hchar s hf
  cases hts : times l name with
  | nil =>
    rw [hts] at hminmem
    cases hminmem
  | cons t ts =>
    rw [hts] at htot hcnt hminle hmaxle
    rw [Nat.mod_eq_of_lt (hts ▸ hsum)] at htot
    rw [Nat.mod_eq_of_lt (hts ▸ hlen)] at hcnt
    have hpos : 0 < (t :: ts).length := by simp
    have hcount1 : 1 ≤ s.call_count := by rw [hcnt]; exact hpos
    refine ⟨hcount1, ?_, ?_⟩
    · rw [htot, hcnt, Nat.le_div_iff_mul_le hpos]
      exact mul_length_le_sum _ _ hminle
    · rw [htot, hcnt]
      calc (t :: ts).sum / (t :: ts).length
          ≤ s.max_time * (t :: ts).length / (t :: ts).length :=
            Nat.div_le_div_right (sum_le_mul_length _ _ hmaxle)
        _ = s.max_time := Nat.mul_div_cancel _ hpos

/-- C3 witness: after [("f",4), ("f",10)] the entry {14, 4, 10, 2}
satisfies 1 ≤ 2 and 4 ≤ 14 / 2 ≤ 10. -/
theorem c3_invariant_witness :
    (∀ p ∈ ([("f", 4), ("f", 10)] : List (String × Nat)), p.2 < U64) ∧
    (times [("f", 4), ("f", 10)] "f").length < U64 ∧
    (times [("f", 4), ("f", 10)] "f").sum < U64 ∧
    findEntry (applyCalls [("f", 4), ("f", 10)]) "f" = some ⟨14, 4, 10, 2⟩ ∧
    (1 ≤ Function.call_count ⟨14, 4, 10, 2⟩ ∧
     Function.min_time ⟨14, 4, 10, 2⟩ ≤
       Function.total_time ⟨14, 4, 10, 2⟩ / Function.call_count ⟨14, 4, 10, 2⟩ ∧
     Function.total_time ⟨14, 4, 10, 2⟩ / Function.call_count ⟨14, 4, 10, 2⟩ ≤
       Function.max_time ⟨14, 4, 10, 2⟩) :=
  ⟨by decide, by decide, by decide, by decide,
   c3_invariant [("f", 4), ("f", 10)] "f" ⟨14, 4, 10, 2⟩
     (by decide) (by decide) (by decide) (by decide)⟩

lemma times_map_const (l : List Nat) (name : String) :
    times (l.map (fun t => (name, t))) name = l := by
  induction l with
  | nil => rfl
  | cons t l ih => simp [times, ih]

lemma replicate_sum (n x : Nat) : (List.replicate n x).sum = n * x := by
  induction n with
  | zero => simp
  | succ n ih => simp [List.replicate_succ, ih, Nat.succ_mul]; omega

/-- C9: with per-call mutual exclusion every interleaving of the two
threads is some permutation of the 2000 calls; for each such permutation
the resulting entry for "kernelA" is {400000, 100, 300, 2000}. -/
theorem c9_concurrent (l : List Nat)
    (h : l.Perm (List.replicate 1000 100 ++ List.replicate 1000 300)) :
    findEntry (applyCalls (l.map (fun t => ("kernelA", t)))) "kernelA" =
      some ⟨400000, 100, 300, 2000⟩ := by
  have hmem : ∀ x ∈ l, x = 100 ∨ x = 300 := by
    intro x hx
    have := h.mem_iff.mp hx
    rcases List.mem_append.mp this with h2 | h2
    · exact Or.inl (List.eq_of_mem_replicate h2)
    · exact Or.inr (List.eq_of_mem_replicate h2)
  have hb : ∀ p ∈ l.map (fun t => ("kernelA", t)), p.2 < U64 := by
    intro p hp
    obtain ⟨x, hx, rfl⟩ := List.mem_map.mp hp
    rcases hmem x hx with rfl | rfl <;> simp [U64]
  have hsum : l.sum = 400000 := by
    rw [h.sum_eq, List.sum_append, replicate_sum, replicate_sum]
  have hlen : l.length = 2000 := by
    rw [h.length_eq, List.length_append, List.length_replicate,
        List.length_replicate]
  have h100 : (100 : Nat) ∈ l := by
    rw [h.mem_iff]
    exact List.mem_append.mpr (Or.inl (List.mem_replicate.mpr ⟨by omega, rfl⟩))
  have h300 : (300 : Nat) ∈ l := by
    rw [h.mem_iff]
    exact List.mem_append.mpr (Or.inr (List.mem_replicate.mpr ⟨by omega, rfl⟩))
  have hne : l ≠ [] := by
    intro hnil; rw [hnil] at h100; cases h100
  obtain ⟨hnil, hchar⟩ := entry_spec (l.map (fun t => ("kernelA", t))) "kernelA" hb
  rw [times_map_const] at hnil hchar
  cases hfind : findEntry (applyCalls (l.map (fun t => ("kernelA", t)))) "kernelA" with
  | none => exact absurd (hnil.mpr hfind) hne
  | some s =>
    obtain ⟨htot, hcnt, hminmem, hminle, hmaxmem, hmaxle⟩ := hchar s hfind
    have hmin : s.min_time = 100 := by
      have h1 : s.min_time ≤ 100 := hminle 100 h100
      rcases hmem _ hminmem with h2 | h2 <;> omega
    have hmax : s.max_time = 300 := by
      have h1 : 300 ≤ s.max_time := hmaxle 300 h300
      rcases hmem _ hmaxmem with h2 | h2 <;> omega
    have htot' : s.total_time = 400000 := by
      rw [htot, hsum]
      decide
    have hcnt' : s.call_count = 2000 := by
      rw [hcnt, hlen]
      decide
    have hs : s = ⟨400000, 100, 300, 2000⟩ := by
      obtain ⟨a, b, c, d⟩ := s
      simp only [Function.mk.injEq]
      exact ⟨htot', hmin, hmax, hcnt'⟩
    rw [hs]

/-- C9 witness: the sequential interleaving (all of thread one, then all of
thread two) yields the stated statistics. -/
theorem c9_concurrent_witness :
    (List.replicate 1000 100 ++ List.replicate 1000 300).Perm
      (List.replicate 1000 100 ++ List.replicate 1000 300) ∧
    findEntry
      (applyCalls ((List.replicate 1000 100 ++ List.replicate 1000 300).map
        (fun t => ("kernelA", t)))) "kernelA" =
      some ⟨400000, 100, 300, 2000⟩ :=
  ⟨List.Perm.refl _, c9_concurrent _ (List.Perm.refl _)⟩

/-- C10: Function::operator> and Function::operator!= depend only on
total_time and call_count; two stats with equal total_time and equal
call_count compare as neither greater nor unequal, whatever their
min_time and max_time. -/
theorem c10_operators (f g f2 g2 : Function)
    (hft : f.total_time = f2.total_time) (hfc : f.call_count = f2.call_count)
    (hgt2 : g.total_time = g2.total_time) (hgc : g.call_count = g2.call_count) :
    (Function.gt f g = Function.gt f2 g2 ∧
     Function.ne f g = Function.ne f2 g2) ∧
    (f.total_time = g.total_time → f.call_count = g.call_count →
      Function.gt f g = false ∧ Function.ne f g = false) := by
  constructor
  · rw [Function.gt, Function.ne, Function.gt, Function.ne,
        hft, hfc, hgt2, hgc]
    exact ⟨rfl, rfl⟩
  · intro h1 h2
    rw [Function.gt, Function.ne, h1, h2]
    simp

/-- C10 witness: {10,1,9,3} and {10,2,8,3} share total_time and call_count
but differ in min_time and max_time; they compare neither greater nor
unequal. -/
theorem c10_operators_witness :
    Function.gt ⟨10, 1, 9, 3⟩ ⟨10, 2, 8, 3⟩ = false ∧
    Function.ne ⟨10, 1, 9, 3⟩ ⟨10, 2, 8, 3⟩ = false :=
  (c10_operators ⟨10, 1, 9, 3⟩ ⟨10, 2, 8, 3⟩ ⟨10, 1, 9, 3⟩ ⟨10, 2, 8, 3⟩
    rfl rfl rfl rfl).2 rfl rfl

/-- Modelled from the spec: `utils::Comparator` (cl_utils.h is not among
the sources at hand). Spec 4.2 orders presentation entries by total_time
descending with ties broken by call_count descending; the std::set needs a
strict order on distinct map entries, so equal statistics fall back to the
name. Built on the source's Function::operator!= and operator>. -/
def Comparator (a b : String × Function) : Bool :=
  if Function.ne a.2 b.2 then Function.gt a.2 b.2 else decide (b.1 < a.1)

/-- Insertion into a list ordered by Comparator (the std::set ordering). -/
def sortedInsert (x : String × Function) :
    List (String × Function) → List (String × Function)
  | [] => [x]
  | y :: ys => if Comparator x y then x :: y :: ys else y :: sortedInsert x ys

/-- The sorted_list built by PrintFunctionsTable from the map entries. -/
def sortEntries (l : List (String × Function)) : List (String × Function) :=
  l.foldr sortedInsert []

/-- One output line of PrintFunctionsTable (avg_duration is the uint64_t
quotient duration / call_count computed per row). -/
structure Row where
  name : String
  call_count : Nat
  duration : Nat
  avg_duration : Nat
  min_duration : Nat
  max_duration : Nat
deriving DecidableEq

def toRow (v : String × Function) : Row :=
  ⟨v.1, v.2.call_count, v.2.total_time,
   v.2.total_time / v.2.call_count, v.2.min_time, v.2.max_time⟩

/-- Embeds `ClApiCollector::PrintFunctionsTable`: sorts the entries with
utils::Comparator, accumulates total_duration (uint64_t), returns early
(none) when total_duration == 0, else emits one row per entry. -/
def PrintFunctionsTable (m : FunctionInfoMap) : Option (List Row) :=
  let sorted := sortEntries m
  let total_duration :=
    sorted.foldl (fun acc v => (acc + v.2.total_time) % U64) 0
  if total_duration = 0 then none else some (sorted.map toRow)

/-- The ordering the spec promises for the presentation: total_time
descending, ties broken by call_count descending. -/
def entryRel (a b : String × Function) : Prop :=
  b.2.total_time < a.2.total_time ∨
    (a.2.total_time = b.2.total_time ∧ b.2.call_count ≤ a.2.call_count)

def rowRel (a b : Row) : Prop :=
  b.duration < a.duration ∨
    (a.duration = b.duration ∧ b.call_count ≤ a.call_count)

lemma entryRel_trans {a b c : String × Function}
    (h1 : entryRel a b) (h2 : entryRel b c) : entryRel a c := by
  unfold entryRel at *
  omega

lemma entryRel_of_cmp_true {x y : String × Function}
    (h : Comparator x y = true) : entryRel x y := by
  unfold Comparator Function.ne Function.gt at h
  unfold entryRel
  by_cases h1 : x.2.total_time = y.2.total_time
  · by_cases h2 : x.2.call_count = y.2.call_count
    · omega
    · simp [h1, h2] at h
      omega
  · simp [h1] at h
    omega

lemma entryRel_of_cmp_false {x y : String × Function}
    (h : Comparator x y = false) : entryRel y x := by
  unfold Comparator Function.ne Function.gt at h
  unfold entryRel
  by_cases h1 : x.2.total_time = y.2.total_time
  · by_cases h2 : x.2.call_count = y.2.call_count
    · omega
    · simp [h1, h2] at h
      omega
  · simp [h1] at h
    omega

lemma mem_sortedInsert {z x : String × Function} {l : List (String × Function)}
    (h : z ∈ sortedInsert x l) : z = x ∨ z ∈ l := by
  induction l with
  | nil =>
    simp [sortedInsert] at h
    exact Or.inl h
  | cons y ys ih =>
    by_cases hc : Comparator x y
    · rw [sortedInsert, if_pos hc] at h
      exact List.mem_cons.mp h
    · rw [sortedInsert, if_neg hc] at h
      rcases List.mem_cons.mp h with h2 | h2
      · exact Or.inr (h2 ▸ List.mem_cons_self _ _)
      · rcases ih h2 with h3 | h3
        · exact Or.inl h3
        · exact Or.inr (List.mem_cons_of_mem _ h3)

lemma pairwise_sortedInsert {x : String × Function}
    {l : List (String × Function)} (h : l.Pairwise entryRel) :
    (sortedInsert x l).Pairwise entryRel := by
  induction l with
  | nil => simp [sortedInsert, List.Pairwise]
  | cons y ys ih =>
    rcases List.pairwise_cons.mp h with ⟨hy, hys⟩
    by_cases hc : Comparator x y
    · rw [sortedInsert, if_pos hc]
      refine List.pairwise_cons.mpr ⟨?_, h⟩
      intro z hz
      rcases List.mem_cons.mp hz with h2 | h2
      · exact h2 ▸ entryRel_of_cmp_true hc
      · exact entryRel_trans (entryRel_of_cmp_true hc) (hy z h2)
    · rw [sortedInsert, if_neg hc]
      refine List.pairwise_cons.mpr ⟨?_, ih hys⟩
      intro z hz
      rcases mem_sortedInsert hz with h2 | h2
      · subst h2
        exact entryRel_of_cmp_false (Bool.of_not_eq_true hc)
      · exact hy z h2

lemma pairwise_sortEntries (l : List (String × Function)) :
    (sortEntries l).Pairwise entryRel := by
  induction l with
  | nil => simp [sortEntries, List.Pairwise]
  | cons y ys ih => exact pairwise_sortedInsert ih

lemma mem_sortEntries {z : String × Function} {l : List (String × Function)}
    (h : z ∈ sortEntries l) : z ∈ l := by
  induction l with
  | nil => simp [sortEntries] at h
  | cons y ys ih =>
    rcases mem_sortedInsert h with h2 | h2
    · exact h2 ▸ List.mem_cons_self _ _
    · exact List.mem_cons_of_mem _ (ih h2)

lemma fold_total_zero (l : List (String × Function))
    (h : ∀ v ∈ l, v.2.total_time = 0) (acc : Nat) (hacc : acc = 0) :
    l.foldl (fun acc v => (acc + v.2.total_time) % U64) acc = 0 := by
  induction l generalizing acc with
  | nil => exact hacc
  | cons v l ih =>
    simp only [List.foldl_cons]
    refine ih (fun w hw => h w (List.mem_cons_of_mem _ hw)) _ ?_
    rw [hacc, h v (List.mem_cons_self _ _)]
    decide

/-- C8 (counterexample): on a map whose only entry has call_count == 0 but
total_time == 5, PrintFunctionsTable does NOT report nothing — the guard is
total_duration == 0, not call_count == 0 — and the emitted row computes the
average as 5 / 0 (a division by zero in the C++ code). -/
theorem c8_cex :
    (∀ e ∈ ([("f", ⟨5, 0, 0, 0⟩)] : FunctionInfoMap), e.2.call_count = 0) ∧
    PrintFunctionsTable [("f", ⟨5, 0, 0, 0⟩)] ≠ none := by
  constructor
  · decide
  · decide

/-- C8 (amended): PrintFunctionsTable orders its rows by total_time
descending with ties broken by call_count descending; it reports nothing
whenever every entry has total_time == 0 (in particular on an empty map);
and when every entry has call_count ≥ 1 — as every entry AddFunctionTime
creates does, absent uint64_t call-count overflow — every emitted row has
call_count ≥ 1, so no average computation divides by zero. -/
theorem c8_table (m : FunctionInfoMap) :
    (∀ rows, PrintFunctionsTable m = some rows → rows.Pairwise rowRel) ∧
    ((∀ e ∈ m, e.2.total_time = 0) → PrintFunctionsTable m = none) ∧
    ((∀ e ∈ m, 1 ≤ e.2.call_count) →
      ∀ rows, PrintFunctionsTable m = some rows →
        ∀ r ∈ rows, 1 ≤ r.call_count) := by
  refine ⟨?_, ?_, ?_⟩
  · intro rows hrows
    unfold PrintFunctionsTable at hrows
    by_cases hz :
        (sortEntries m).foldl (fun acc v => (acc + v.2.total_time) % U64) 0 = 0
    · rw [if_pos hz] at hrows
      cases hrows
    · rw [if_neg hz] at hrows
      injection hrows with hrows
      subst hrows
      refine List.Pairwise.map toRow ?_ (pairwise_sortEntries m)
      intro a b hab
      unfold rowRel toRow
      unfold entryRel at hab
      dsimp only
      omega
  · intro h0
    unfold PrintFunctionsTable
    rw [if_pos (fold_total_zero _ (fun v hv => h0 v (mem_sortEntries hv)) 0 rfl)]
  · intro hc rows hrows r hr
    unfold PrintFunctionsTable at hrows
    by_cases hz :
        (sortEntries m).foldl (fun acc v => (acc + v.2.total_time) % U64) 0 = 0
    · rw [if_pos hz] at hrows
      cases hrows
    · rw [if_neg hz] at hrows
      injection hrows with hrows
      subst hrows
      obtain ⟨v, hv, rfl⟩ := List.mem_map.mp hr
      exact hc v (mem_sortEntries hv)

/-- C8 witness: on the three-entry map below the table is emitted, its rows
are ordered by total descending then call_count descending, an all-zero
map yields no output, and each row keeps a positive call_count. -/
theorem c8_table_witness :
    PrintFunctionsTable
        [("a", ⟨10, 2, 8, 2⟩), ("b", ⟨10, 5, 5, 1⟩), ("c", ⟨4, 4, 4, 1⟩)] =
      some [⟨"a", 2, 10, 5, 2, 8⟩, ⟨"b", 1, 10, 10, 5, 5⟩,
            ⟨"c", 1, 4, 4, 4, 4⟩] ∧
    List.Pairwise rowRel
      [⟨"a", 2, 10, 5, 2, 8⟩, ⟨"b", 1, 10, 10, 5, 5⟩, ⟨"c", 1, 4, 4, 4, 4⟩] ∧
    PrintFunctionsTable [("z", ⟨0, 0, 0, 1⟩)] = none ∧
    (1 : Nat) ≤ Row.call_count ⟨"c", 1, 4, 4, 4, 4⟩ :=
  ⟨by decide,
   (c8_table [("a", ⟨10, 2, 8, 2⟩), ("b", ⟨10, 5, 5, 1⟩),
              ("c", ⟨4, 4, 4, 1⟩)]).1
     [⟨"a", 2, 10, 5, 2, 8⟩, ⟨"b", 1, 10, 10, 5, 5⟩, ⟨"c", 1, 4, 4, 4, 4⟩]
     (by decide),
   (c8_table [("z", ⟨0, 0, 0, 1⟩)]).2.1 (by decide),
   (c8_table [("a", ⟨10, 2, 8, 2⟩), ("b", ⟨10, 5, 5, 1⟩),
              ("c", ⟨4, 4, 4, 1⟩)]).2.2 (by decide)
     [⟨"a", 2, 10, 5, 2, 8⟩, ⟨"b", 1, 10, 10, 5, 5⟩, ⟨"c", 1, 4, 4, 4, 4⟩]
     (by decide) ⟨"c", 1, 4, 4, 4, 4⟩ (by decide)⟩

/-- The pti_result status values of the view API. -/
inductive PtiResult where
  | success
  | endOfBuffer
  | badArgument
  | errorInternal
deriving DecidableEq

/-- The pti_view_kind record kinds. -/
inductive ViewKind where
  | invalid
  | memCopy
  | memFill
  | kernel
  | externalCorrelation
  | overhead
deriving DecidableEq, BEq

def kindCode : ViewKind → Nat
  | .invalid => 0
  | .memCopy => 1
  | .memFill => 2
  | .kernel => 3
  | .externalCorrelation => 4
  | .overhead => 5

def codeToKind (c : Nat) : Option ViewKind :=
  if c = 0 then some .invalid
  else if c = 1 then some .memCopy
  else if c = 2 then some .memFill
  else if c = 3 then some .kernel
  else if c = 4 then some .externalCorrelation
  else if c = 5 then some .overhead
  else none

/-- Bytes of the common record header: kind tag and struct_size. -/
def kHeaderSize : Nat := 2

/-- Modelled from the spec: the per-kind record sizes (sizeof of the
pti_view_record_* structs, absent from the sources at hand); the kernel
record is the largest, as in the fixture's InadequateBufferRequested /
BufferRequested callbacks. Records may also be shorter at runtime (the
spec allows variable-length records within a kind); only kind and
struct_size matter to the parser. -/
def recordSizeOf : ViewKind → Nat
  | .invalid => 2
  | .memCopy => 3
  | .memFill => 3
  | .kernel => 4
  | .externalCorrelation => 2
  | .overhead => 2

def allKinds : List ViewKind :=
  [.invalid, .memCopy, .memFill, .kernel, .externalCorrelation, .overhead]

/-- The known maximum record size across all kinds (spec 4.3). -/
def kMaxRecordSize : Nat := (allKinds.map recordSizeOf).foldl Nat.max 0

/-- Result of one iterator call: status, the returned record view (its
kind and its offset in the buffer), and the cursor after the call. -/
structure NextResult where
  status : PtiResult
  view : Option (ViewKind × Nat)
  cursor : Nat
deriving DecidableEq

/-- Modelled from the spec: `ptiViewGetNextRecord` (its implementation is
not among the sources at hand, only its tests). Spec 4.4/6: a null output
record pointer yields BAD_ARGUMENT before anything else; a null buffer is
trivially empty (END_OF_BUFFER) for every size; a cursor that has reached
size yields END_OF_BUFFER; otherwise the common header (kind, struct_size)
is read at the cursor, an unrecognized kind or a struct_size that is
smaller than the header or runs past the buffer is ERROR_INTERNAL, and on
success the cursor advances by struct_size and a view at the old cursor is
returned. -/
def ptiViewGetNextRecord (buf : Option (List Nat)) (size : Nat)
    (recordOutNull : Bool) (cursor : Nat) : NextResult :=
  if recordOutNull then ⟨.badArgument, none, cursor⟩
  else
    match buf with
    | none => ⟨.endOfBuffer, none, cursor⟩
    | some bytes =>
      if size ≤ cursor then ⟨.endOfBuffer, none, cursor⟩
      else
        match bytes[cursor]?, bytes[cursor + 1]? with
        | some k, some s =>
          match codeToKind k with
          | none => ⟨.errorInternal, none, cursor⟩
          | some kind =>
            if s < kHeaderSize ∨ size < cursor + s then
              ⟨.errorInternal, none, cursor⟩
            else ⟨.success, some (kind, cursor), cursor + s⟩
        | _, _ => ⟨.errorInternal, none, cursor⟩

/-- Drain a buffer from a cursor: the kinds of the records returned with
SUCCESS, in order, and the cursor at which draining stopped. -/
def drainAll (bytes : List Nat) (size : Nat) : Nat → Nat → List ViewKind × Nat
  | 0, c => ([], c)
  | fuel + 1, c =>
    match ptiViewGetNextRecord (some bytes) size false c with
    | ⟨.success, some kv, c'⟩ =>
      let rest := drainAll bytes size fuel c'
      (kv.1 :: rest.1, rest.2)
    | _ => ([], c)

/-- The serialized bytes of one record of kind k with its full size. -/
def recordBytes (k : ViewKind) : List Nat :=
  kindCode k :: recordSizeOf k :: List.replicate (recordSizeOf k - 2) 0

/-- The fixture's buffer (GetNextRecordTestSuite / CreateFullBuffer): in
order, 1 overhead, 15 memory-copy, 15 memory-fill, 100 external
correlation, 3 kernel, 1 overhead record. -/
def testBuf : List Nat :=
  (List.replicate 1 (recordBytes .overhead) ++
   List.replicate 15 (recordBytes .memCopy) ++
   List.replicate 15 (recordBytes .memFill) ++
   List.replicate 100 (recordBytes .externalCorrelation) ++
   List.replicate 3 (recordBytes .kernel) ++
   List.replicate 1 (recordBytes .overhead)).flatten

set_option maxRecDepth 100000 in
/-- C2 (counterexample): the fixture buffer holds 1 + 15 + 15 + 100 + 3 + 1
= 135 records, so draining yields 135 successful records, not the 136 the
claim states (the test's own kTotalRecs = 2*1 + 2*15 + 3 + 100 = 135). -/
theorem c2_cex :
    (drainAll testBuf testBuf.length testBuf.length 0).1.length = 135 ∧
    (135 : Nat) ≠ 136 := by
  constructor
  · decide
  · decide

set_option maxRecDepth 100000 in
/-- C2 (amended): draining the fixture buffer yields exactly 2 overhead,
15 memory-copy, 15 memory-fill, 100 external-correlation and 3 kernel
records — 135 records in total — and the call after the last record
returns END_OF_BUFFER. -/
theorem c2_drain :
    ((drainAll testBuf testBuf.length testBuf.length 0).1.count .overhead = 2 ∧
     (drainAll testBuf testBuf.length testBuf.length 0).1.count .memCopy = 15 ∧
     (drainAll testBuf testBuf.length testBuf.length 0).1.count .memFill = 15 ∧
     (drainAll testBuf testBuf.length testBuf.length 0).1.count
       .externalCorrelation = 100 ∧
     (drainAll testBuf testBuf.length testBuf.length 0).1.count .kernel = 3 ∧
     (drainAll testBuf testBuf.length testBuf.length 0).1.length = 135) ∧
    (ptiViewGetNextRecord (some testBuf) testBuf.length false
       (drainAll testBuf testBuf.length testBuf.length 0).2).status =
      .endOfBuffer := by
  constructor
  · refine ⟨?_, ?_, ?_, ?_, ?_, ?_⟩ <;> decide
  · decide

/-- C5: a null buffer pointer with a non-null output pointer yields
END_OF_BUFFER for every size (including the maximum size_t) and every
cursor, without advancing. -/
theorem c5_null_buffer (size cursor : Nat) :
    ptiViewGetNextRecord none size false cursor =
      ⟨.endOfBuffer, none, cursor⟩ := rfl

/-- C6: a null output record pointer yields BAD_ARGUMENT for every buffer
(valid or null) and every size — argument validation precedes buffer
validation, so it wins even when the buffer pointer is also null. -/
theorem c6_null_record (buf : Option (List Nat)) (size cursor : Nat) :
    ptiViewGetNextRecord buf size true cursor =
      ⟨.badArgument, none, cursor⟩ := rfl

/-- Cursor evolution under repeated iterator calls on the same buffer. -/
def iterCursor (bytes : List Nat) (size c : Nat) : Nat → Nat
  | 0 => c
  | n + 1 =>
    (ptiViewGetNextRecord (some bytes) size false
      (iterCursor bytes size c n)).cursor

lemma next_at_end (bytes : List Nat) (size c : Nat) (h : size ≤ c) :
    ptiViewGetNextRecord (some bytes) size false c =
      ⟨.endOfBuffer, none, c⟩ := by
  unfold ptiViewGetNextRecord
  simp [h]

/-- C7: once the cursor has reached size, every further call returns
END_OF_BUFFER (not an error status) and never advances the cursor. -/
theorem c7_at_end (bytes : List Nat) (size cursor : Nat) (h : cursor = size) :
    (∀ n, iterCursor bytes size cursor n = cursor) ∧
    (∀ n, ptiViewGetNextRecord (some bytes) size false
        (iterCursor bytes size cursor n) = ⟨.endOfBuffer, none, cursor⟩) := by
  have hle : size ≤ cursor := le_of_eq h.symm
  have hstep : ∀ n, iterCursor bytes size cursor n = cursor := by
    intro n
    induction n with
    | zero => rfl
    | succ n ih =>
      show (ptiViewGetNextRecord (some bytes) size false
        (iterCursor bytes size cursor n)).cursor = cursor
      rw [ih, next_at_end bytes size cursor hle]
  refine ⟨hstep, fun n => ?_⟩
  rw [hstep n]
  exact next_at_end bytes size cursor hle

/-- C7 witness: at the end of a one-record buffer (size 2, cursor 2) the
third repeated call still returns END_OF_BUFFER at cursor 2. -/
theorem c7_at_end_witness :
    (2 : Nat) = [0, 2].length ∧
    iterCursor [0, 2] [0, 2].length 2 3 = 2 ∧
    ptiViewGetNextRecord (some [0, 2]) [0, 2].length false
      (iterCursor [0, 2] [0, 2].length 2 3) = ⟨.endOfBuffer, none, 2⟩ :=
  ⟨rfl, (c7_at_end [0, 2] [0, 2].length 2 rfl).1 3,
   (c7_at_end [0, 2] [0, 2].length 2 rfl).2 3⟩

/-- A buffer-request callback, modelled by what it supplies when invoked:
whether the returned pointer is null, and the buffer size it writes. -/
structure RequestCb where
  suppliesNull : Bool
  suppliesSize : Nat
deriving DecidableEq

/-- The view subsystem's callback registration state. -/
structure ViewState where
  registered : Option RequestCb
deriving DecidableEq

/-- Outcome of ptiViewSetCallbacks: the returned status, the registration
state afterwards, and how many times the candidate callback was invoked
during registration (for validation). -/
structure SetCallbacksResult where
  status : PtiResult
  state : ViewState
  validationInvocations : Nat
deriving DecidableEq

/-- Modelled from the spec: `ptiViewSetCallbacks` (its implementation is
not among the sources at hand, only its tests). Spec 4.3/7: registration
invokes the candidate request callback once for validation and rejects it
with PTI_ERROR_BAD_ARGUMENT — leaving the previous registration state
unchanged — when the storage it would supply is null or smaller than the
known maximum record size across all kinds; otherwise it registers the
callback and succeeds. -/
def ptiViewSetCallbacks (st : ViewState) (cb : RequestCb) :
    SetCallbacksResult :=
  if cb.suppliesNull ∨ cb.suppliesSize < kMaxRecordSize then
    ⟨.badArgument, st, 1⟩
  else
    ⟨.success, ⟨some cb⟩, 1⟩

/-- The callbacks a tracing run that requests n buffers draws from: only
ever the currently registered callback. -/
def requestTargets (st : ViewState) (n : Nat) : List RequestCb :=
  match st.registered with
  | none => []
  | some cb => List.replicate n cb

/-- C4: a request callback that would supply storage smaller than the
largest possible record is rejected synchronously with BAD_ARGUMENT and no
state change; it is invoked at most once (for validation), and tracing
afterwards never requests buffers from it. -/
theorem c4_reject (st : ViewState) (cb : RequestCb)
    (hsmall : cb.suppliesSize < kMaxRecordSize)
    (hnew : st.registered ≠ some cb) :
    (ptiViewSetCallbacks st cb).status = .badArgument ∧
    (ptiViewSetCallbacks st cb).state = st ∧
    (ptiViewSetCallbacks st cb).validationInvocations ≤ 1 ∧
    (∀ n, cb ∉ requestTargets (ptiViewSetCallbacks st cb).state n) := by
  rw [ptiViewSetCallbacks, if_pos (Or.inr hsmall)]
  refine ⟨rfl, rfl, le_refl 1, ?_⟩
  intro n hmem
  unfold requestTargets at hmem
  cases hreg : st.registered with
  | none => rw [hreg] at hmem; cases hmem
  | some cb0 =>
    rw [hreg] at hmem
    have : cb = cb0 := List.eq_of_mem_replicate hmem
    exact hnew (by rw [hreg, this])

/-- C4 witness: a callback supplying 3 bytes (smaller than the largest
record, 4 bytes) is rejected by a collector with no registration, and a
run of 5 buffer requests never draws from it. -/
theorem c4_reject_witness :
    (RequestCb.suppliesSize ⟨false, 3⟩ < kMaxRecordSize) ∧
    (ViewState.registered ⟨none⟩ ≠ some ⟨false, 3⟩) ∧
    (ptiViewSetCallbacks ⟨none⟩ ⟨false, 3⟩).status = .badArgument ∧
    (ptiViewSetCallbacks ⟨none⟩ ⟨false, 3⟩).state = ⟨none⟩ ∧
    (⟨false, 3⟩ : RequestCb) ∉
      requestTargets (ptiViewSetCallbacks ⟨none⟩ ⟨false, 3⟩).state 5 :=
  ⟨by decide, by decide,
   (c4_reject ⟨none⟩ ⟨false, 3⟩ (by decide) (by decide)).1,
   (c4_reject ⟨none⟩ ⟨false, 3⟩ (by decide) (by decide)).2.1,
   (c4_reject ⟨none⟩ ⟨false, 3⟩ (by decide) (by decide)).2.2.2 5⟩

end PtiGpu
